import Mathlib

/-!
Shallow embedding of the `planetas` range-finding core
(`src/planetas/search/range_finder.py` together with the data model in
`src/planetas/models/` and the precision flag of `src/planetas/config.py`),
with proofs of the spec's claims about it.

Modelling conventions:
* an instant of civil time is modelled as a number of microseconds since an (arbitrary) midnight
  epoch, as a `Nat`; Python `datetime` values are totally ordered, subtract
  to microsecond-resolution `timedelta`s, and are bounded below, so `Nat`
  microseconds is a faithful carrier.  `timedelta / 2` divides exactly in
  microseconds and rounds a half microsecond to the nearest even value;
  `half_delta` reproduces that.
* `datetime.replace(hour=0, minute=0, second=0, microsecond=0)` floors to
  the enclosing midnight and `replace(second=0, microsecond=0)` floors to
  the enclosing minute; `floor_to_quantum` implements both.
* the calculator (`BaseCalculator.get_sign`) is consumed by the range
  finder only through `position.sign if position else None`, so the oracle
  is modelled as `Planet → Nat → Option Sign` (the unused `longitude`
  fields of `SignPosition` are dropped).
* Python's `while` loops become structural recursion on an explicit fuel;
  the top-level entry points supply fuel that is provably sufficient
  (each bisection iteration strictly shrinks `after - before`, and each
  scan iteration advances `current` by `step > 0`).
* `Config._precision_minutes`, the process-wide mutable flag read by
  `Config.get_precision_minutes()` inside both bisection routines, is
  modelled as an explicit `precision_minutes : Bool` argument holding the
  flag's value during the search.
-/

namespace Planetas

/-- Number of microseconds in one minute. -/
def MICROSECONDS_PER_MINUTE : Nat := 60000000

/-- Number of microseconds in one day. -/
def MICROSECONDS_PER_DAY : Nat := 86400000000

/-- The 12-sign zodiac of `models/signs.py` (`class ZodiacSign(IntEnum)`). -/
inductive ZodiacSign where
  | aries | taurus | gemini | cancer | leo | virgo
  | libra | scorpio | sagittarius | capricorn | aquarius | pisces
deriving DecidableEq, Repr

/-- Integer value of a `ZodiacSign` member (sign index 0–11). -/
def ZodiacSign.val : ZodiacSign → Nat
  | .aries => 0 | .taurus => 1 | .gemini => 2 | .cancer => 3
  | .leo => 4 | .virgo => 5 | .libra => 6 | .scorpio => 7
  | .sagittarius => 8 | .capricorn => 9 | .aquarius => 10 | .pisces => 11

/-- Capitalized sign name, as `ZodiacSign.display_name`. -/
def ZodiacSign.display_name : ZodiacSign → String
  | .aries => "Aries" | .taurus => "Taurus" | .gemini => "Gemini"
  | .cancer => "Cancer" | .leo => "Leo" | .virgo => "Virgo"
  | .libra => "Libra" | .scorpio => "Scorpio" | .sagittarius => "Sagittarius"
  | .capricorn => "Capricorn" | .aquarius => "Aquarius" | .pisces => "Pisces"

/-- The 13 ecliptic constellations of `models/signs.py`
(`class Constellation(IntEnum)`, values 1–13). -/
inductive Constellation where
  | aries | taurus | gemini | cancer | leo | virgo | libra
  | scorpius | ophiuchus | sagittarius | capricornus | aquarius | pisces
deriving DecidableEq, Repr

/-- Integer value of a `Constellation` member (arbitrary identifiers 1–13). -/
def Constellation.val : Constellation → Nat
  | .aries => 1 | .taurus => 2 | .gemini => 3 | .cancer => 4
  | .leo => 5 | .virgo => 6 | .libra => 7 | .scorpius => 8
  | .ophiuchus => 9 | .sagittarius => 10 | .capricornus => 11
  | .aquarius => 12 | .pisces => 13

/-- Capitalized constellation name, as `Constellation.display_name`. -/
def Constellation.display_name : Constellation → String
  | .aries => "Aries" | .taurus => "Taurus" | .gemini => "Gemini"
  | .cancer => "Cancer" | .leo => "Leo" | .virgo => "Virgo"
  | .libra => "Libra" | .scorpius => "Scorpius" | .ophiuchus => "Ophiuchus"
  | .sagittarius => "Sagittarius" | .capricornus => "Capricornus"
  | .aquarius => "Aquarius" | .pisces => "Pisces"

/-- A label value flowing through the range finder: the Python code is typed
`ZodiacSign | Constellation`. -/
inductive Sign where
  | zodiac (s : ZodiacSign)
  | constellation (c : Constellation)
deriving DecidableEq, Repr

/-- Underlying integer of a label.  Both Python classes are `IntEnum`s, so
`==` between any two members compares these integers. -/
def Sign.val : Sign → Nat
  | .zodiac s => s.val
  | .constellation c => c.val

/-- The celestial bodies of `models/planets.py` (`class Planet(IntEnum)`). -/
inductive Planet where
  | sun | moon | mercury | venus | mars
  | jupiter | saturn | uranus | neptune | pluto
deriving DecidableEq, Repr

/-- Coarse search step in days per planet (`Planet.search_step_days`). -/
def Planet.search_step_days : Planet → Nat
  | .sun => 7 | .moon => 1 | .mercury => 5 | .venus => 7 | .mars => 14
  | .jupiter => 30 | .saturn => 30 | .uranus => 90 | .neptune => 90
  | .pluto => 90

/-- The position oracle: `BaseCalculator.get_sign` composed with the
`position.sign if position else None` projection used at every call site in
`RangeFinder`.  `none` models both a `None` return of `get_sign`. -/
abbrev Oracle := Planet → Nat → Option Sign

/-- An emitted interval (`models/results.py`, `DateRange`); the Python field
`end` is a Lean keyword and is rendered `end_`. -/
structure DateRange where
  start : Nat
  end_ : Nat
  sign : Sign
deriving DecidableEq, Repr

/-- Equality test on signs, `RangeFinder._signs_match`: `False` when the
first argument is `None`, Python `==` (IntEnum value comparison) otherwise. -/
def signs_match : Option Sign → Sign → Bool
  | none, _ => false
  | some sign1, sign2 => sign1.val == sign2.val

/-- Python's `timedelta / 2` on a microsecond count: exact when even, round
half to even when odd. -/
def half_delta (d : Nat) : Nat :=
  if d % 2 = 0 then d / 2
  else if (d / 2) % 2 = 0 then d / 2 else d / 2 + 1

/-- The bisection stop threshold:
`timedelta(minutes=1) if precision_minutes else timedelta(days=1)`. -/
def min_delta (precision_minutes : Bool) : Nat :=
  if precision_minutes then MICROSECONDS_PER_MINUTE else MICROSECONDS_PER_DAY

/-- Truncation of a boundary timestamp to the configured quantum:
`t.replace(second=0, microsecond=0)` under minute precision,
`t.replace(hour=0, minute=0, second=0, microsecond=0)` otherwise. -/
def floor_to_quantum (precision_minutes : Bool) (t : Nat) : Nat :=
  if precision_minutes then
    MICROSECONDS_PER_MINUTE * (t / MICROSECONDS_PER_MINUTE)
  else
    MICROSECONDS_PER_DAY * (t / MICROSECONDS_PER_DAY)

/-- The `while (after - before) > min_delta` loop of
`RangeFinder._find_entry_point`, returning the final `(before, after)`
pair.  Fuel-indexed; `after - before` units of fuel suffice because each
iteration strictly shrinks the gap. -/
def find_entry_loop (oracle : Oracle) (planet : Planet) (target : Sign)
    (precision_minutes : Bool) : Nat → Nat → Nat → Nat × Nat
  | 0, before, after => (before, after)
  | fuel + 1, before, after =>
    if min_delta precision_minutes < after - before then
      let mid := before + half_delta (after - before)
      if signs_match (oracle planet mid) target then
        find_entry_loop oracle planet target precision_minutes fuel before mid
      else
        find_entry_loop oracle planet target precision_minutes fuel mid after
    else (before, after)

/-- Model of `RangeFinder._find_entry_point`: bisect, then return `after` truncated
to the configured quantum. -/
def find_entry_point (oracle : Oracle) (planet : Planet) (target : Sign)
    (precision_minutes : Bool) (before after : Nat) : Nat :=
  floor_to_quantum precision_minutes
    (find_entry_loop oracle planet target precision_minutes
      (after - before) before after).2

/-- The bisection loop of `RangeFinder._find_exit_point`: same halving, but
a matching midpoint moves `before` up and the final `before` is kept. -/
def find_exit_loop (oracle : Oracle) (planet : Planet) (target : Sign)
    (precision_minutes : Bool) : Nat → Nat → Nat → Nat × Nat
  | 0, before, after => (before, after)
  | fuel + 1, before, after =>
    if min_delta precision_minutes < after - before then
      let mid := before + half_delta (after - before)
      if signs_match (oracle planet mid) target then
        find_exit_loop oracle planet target precision_minutes fuel mid after
      else
        find_exit_loop oracle planet target precision_minutes fuel before mid
    else (before, after)

/-- Model of `RangeFinder._find_exit_point`: bisect, then return `before` truncated
to the configured quantum. -/
def find_exit_point (oracle : Oracle) (planet : Planet) (target : Sign)
    (precision_minutes : Bool) (before after : Nat) : Nat :=
  floor_to_quantum precision_minutes
    (find_exit_loop oracle planet target precision_minutes
      (after - before) before after).1

/-- The `while current <= end_date` scan of `RangeFinder.find_ranges`,
including the post-loop handling of a still-open interval.  State is
`(current, in_sign, entry_date)` exactly as in the source; the generator's
`yield`s become list elements in emission order. -/
def find_ranges_loop (oracle : Oracle) (planet : Planet) (target : Sign)
    (precision_minutes : Bool) (step start_date end_date : Nat) :
    Nat → Nat → Bool → Option Nat → List DateRange
  | 0, _, _, _ => []
  | fuel + 1, current, in_sign, entry_date =>
    if current ≤ end_date then
      let current_sign := oracle planet current
      let current_in_sign := signs_match current_sign target
      if current_in_sign && !in_sign then
        let entry :=
          if current = start_date then start_date
          else find_entry_point oracle planet target precision_minutes
            (current - step) current
        find_ranges_loop oracle planet target precision_minutes step
          start_date end_date fuel (current + step) true (some entry)
      else if !current_in_sign && in_sign then
        let exit_date := find_exit_point oracle planet target precision_minutes
          (current - step) current
        (match entry_date with
          | some entry => [⟨entry, exit_date, target⟩]
          | none => []) ++
        find_ranges_loop oracle planet target precision_minutes step
          start_date end_date fuel (current + step) false none
      else
        find_ranges_loop oracle planet target precision_minutes step
          start_date end_date fuel (current + step) in_sign entry_date
    else
      if in_sign then
        match entry_date with
        | some entry =>
          if signs_match (oracle planet end_date) target then
            [⟨entry, end_date, target⟩]
          else
            let search_start := min (current - step) end_date
            [⟨entry,
              find_exit_point oracle planet target precision_minutes
                search_start end_date,
              target⟩]
        | none => []
      else []

/-- Model of `RangeFinder.find_ranges`: set `step` from the planet's step hint and
run the scan from `start_date` in state OUTSIDE.  The fuel covers every
iteration with `current ≤ end_date` plus the final post-loop call. -/
def find_ranges (oracle : Oracle) (planet : Planet) (target : Sign)
    (precision_minutes : Bool) (start_date end_date : Nat) :
    List DateRange :=
  let step := planet.search_step_days * MICROSECONDS_PER_DAY
  find_ranges_loop oracle planet target precision_minutes step
    start_date end_date ((end_date - start_date) / step + 2)
    start_date false none

/-- Iteration counter for the `_find_entry_point` bisection loop: same
recursion and branching as `find_entry_loop`, counting executed
iterations. -/
def find_entry_count (oracle : Oracle) (planet : Planet) (target : Sign)
    (precision_minutes : Bool) : Nat → Nat → Nat → Nat
  | 0, _, _ => 0
  | fuel + 1, before, after =>
    if min_delta precision_minutes < after - before then
      let mid := before + half_delta (after - before)
      if signs_match (oracle planet mid) target then
        find_entry_count oracle planet target precision_minutes fuel before
          mid + 1
      else
        find_entry_count oracle planet target precision_minutes fuel mid
          after + 1
    else 0

/-- Iteration counter for the `_find_exit_point` bisection loop. -/
def find_exit_count (oracle : Oracle) (planet : Planet) (target : Sign)
    (precision_minutes : Bool) : Nat → Nat → Nat → Nat
  | 0, _, _ => 0
  | fuel + 1, before, after =>
    if min_delta precision_minutes < after - before then
      let mid := before + half_delta (after - before)
      if signs_match (oracle planet mid) target then
        find_exit_count oracle planet target precision_minutes fuel mid
          after + 1
      else
        find_exit_count oracle planet target precision_minutes fuel before
          mid + 1
    else 0

/-- The last coarse-scan sample visited by `find_ranges` when
`start_date ≤ end_date`: the largest element of
`start_date, start_date + step, …` that is `≤ end_date`. -/
def last_sample (step s e : Nat) : Nat := s + step * ((e - s) / step)

/-! Concrete oracles used by the counterexamples and witnesses.  All of
them are total and deterministic; `taurus`/`aries` stand for the target
label `B` and a different label `A`. -/

/-- Oracle whose label sequence at the Moon's daily samples `0, 1 d, …, 7 d`
is `A, A, B, B, A, A, B, B` for `B = taurus`: it holds `taurus` on
`[2 d, 4 d)` and from `6 d` on, `aries` elsewhere. -/
def oracle_reentry : Oracle := fun _ x =>
  some (if (172800000000 ≤ x ∧ x < 345600000000) ∨ 518400000000 ≤ x
    then Sign.zodiac ZodiacSign.taurus else Sign.zodiac ZodiacSign.aries)

/-- Oracle holding `taurus` strictly before `1500 min` and `aries` from
there on. -/
def oracle_inverted : Oracle := fun _ x =>
  some (if x < 90000000000 then Sign.zodiac ZodiacSign.taurus
    else Sign.zodiac ZodiacSign.aries)

/-- Oracle holding `taurus` strictly before `2879 min` (one minute short of
two days) and `aries` from there on: a single exit transition at
`t = 2879 min`. -/
def oracle_exit_far : Oracle := fun _ x =>
  some (if x < 172740000000 then Sign.zodiac ZodiacSign.taurus
    else Sign.zodiac ZodiacSign.aries)

/-- Oracle holding `taurus` before `720 min`, `aries` on
`[720 min, 2000 min)` and `taurus` again from `2000 min` on. -/
def oracle_missed_end : Oracle := fun _ x =>
  some (if x < 43200000000 then Sign.zodiac ZodiacSign.taurus
    else if x < 120000000000 then Sign.zodiac ZodiacSign.aries
    else Sign.zodiac ZodiacSign.taurus)

/-- Oracle with a single entry transition into `taurus` at `750 min`. -/
def oracle_threshold : Oracle := fun _ x =>
  some (if 45000000000 ≤ x then Sign.zodiac ZodiacSign.taurus
    else Sign.zodiac ZodiacSign.aries)

/-- Oracle returning an undefined classification (`None`) everywhere. -/
def oracle_undefined : Oracle := fun _ _ => none

/-- Oracle returning the non-target label `aries` everywhere. -/
def oracle_always_aries : Oracle := fun _ _ =>
  some (Sign.zodiac ZodiacSign.aries)

/-- Oracle returning the tropical sign `taurus` everywhere. -/
def oracle_always_taurus : Oracle := fun _ _ =>
  some (Sign.zodiac ZodiacSign.taurus)

/-- Oracle with a single entry transition into `taurus` at `150 min`. -/
def oracle_early_entry : Oracle := fun _ x =>
  some (if 9000000000 ≤ x then Sign.zodiac ZodiacSign.taurus
    else Sign.zodiac ZodiacSign.aries)

/-! ## Basic arithmetic facts about the model -/

theorem min_delta_pos (pm : Bool) : 0 < min_delta pm := by
  cases pm <;> decide

theorem min_delta_le_day (pm : Bool) : min_delta pm ≤ MICROSECONDS_PER_DAY := by
  cases pm <;> decide

theorem search_step_days_pos (p : Planet) : 0 < p.search_step_days := by
  cases p <;> decide

theorem step_ge_day (p : Planet) :
    MICROSECONDS_PER_DAY ≤ p.search_step_days * MICROSECONDS_PER_DAY :=
  Nat.le_mul_of_pos_left _ (search_step_days_pos p)

theorem step_pos (p : Planet) :
    0 < p.search_step_days * MICROSECONDS_PER_DAY :=
  lt_of_lt_of_le (by decide) (step_ge_day p)

theorem half_delta_lb (d : Nat) : d / 2 ≤ half_delta d := by
  unfold half_delta; split_ifs <;> omega

theorem half_delta_ub (d : Nat) : half_delta d ≤ (d + 1) / 2 := by
  unfold half_delta; split_ifs <;> omega

/-- When the bisection loop body runs, the midpoint is strictly between the
current endpoints. -/
theorem mid_bounds (pm : Bool) {b a : Nat} (h : min_delta pm < a - b) :
    b < b + half_delta (a - b) ∧ b + half_delta (a - b) < a := by
  have h1 := min_delta_pos pm
  have h2 := half_delta_lb (a - b)
  have h3 := half_delta_ub (a - b)
  omega

theorem floor_to_quantum_le (pm : Bool) (t : Nat) :
    floor_to_quantum pm t ≤ t := by
  unfold floor_to_quantum
  split_ifs <;> exact Nat.mul_div_le t _

theorem lt_floor_to_quantum_add (pm : Bool) (t : Nat) :
    t < floor_to_quantum pm t + min_delta pm := by
  have h1 : ∀ q s : Nat, 0 < q → s < q * (s / q) + q := by
    intro q s hq
    calc s = q * (s / q) + s % q := (Nat.div_add_mod s q).symm
    _ < q * (s / q) + q := Nat.add_lt_add_left (Nat.mod_lt s hq) _
  cases pm
  · exact h1 86400000000 t (by norm_num)
  · exact h1 60000000 t (by norm_num)

theorem floor_to_quantum_mono (pm : Bool) {s t : Nat} (h : s ≤ t) :
    floor_to_quantum pm s ≤ floor_to_quantum pm t := by
  unfold floor_to_quantum
  split_ifs <;> exact Nat.mul_le_mul_left _ (Nat.div_le_div_right h)

/-! ## Bisection loop lemmas -/

/-- The entry bisection never leaves the bracketing interval. -/
theorem find_entry_loop_bounds (oracle : Oracle) (p : Planet) (target : Sign)
    (pm : Bool) :
    ∀ fuel b a, b ≤ a →
      b ≤ (find_entry_loop oracle p target pm fuel b a).1 ∧
      (find_entry_loop oracle p target pm fuel b a).1 ≤
        (find_entry_loop oracle p target pm fuel b a).2 ∧
      (find_entry_loop oracle p target pm fuel b a).2 ≤ a := by
  intro fuel
  induction fuel with
  | zero => intro b a h; exact ⟨le_refl _, h, le_refl _⟩
  | succ n ih =>
    intro b a h
    simp only [find_entry_loop]
    split_ifs with hgap hm
    · have hm' := mid_bounds pm hgap
      have := ih b (b + half_delta (a - b)) (le_of_lt hm'.1)
      exact ⟨this.1, this.2.1, le_trans this.2.2 (le_of_lt hm'.2)⟩
    · have hm' := mid_bounds pm hgap
      have := ih (b + half_delta (a - b)) a (le_of_lt hm'.2)
      exact ⟨le_trans (le_of_lt hm'.1) this.1, this.2.1, this.2.2⟩
    · exact ⟨le_refl _, h, le_refl _⟩

/-- With a strictly ordered bracket, the bisection keeps it strictly
ordered. -/
theorem find_entry_loop_strict (oracle : Oracle) (p : Planet) (target : Sign)
    (pm : Bool) :
    ∀ fuel b a, b < a →
      (find_entry_loop oracle p target pm fuel b a).1 <
      (find_entry_loop oracle p target pm fuel b a).2 := by
  intro fuel
  induction fuel with
  | zero => intro b a h; exact h
  | succ n ih =>
    intro b a h
    simp only [find_entry_loop]
    split_ifs with hgap hm
    · exact ih _ _ (mid_bounds pm hgap).1
    · exact ih _ _ (mid_bounds pm hgap).2
    · exact h

/-- Supplied with `after - before` units of fuel, the entry bisection stops
only when the remaining gap is at most `min_delta`. -/
theorem find_entry_loop_gap (oracle : Oracle) (p : Planet) (target : Sign)
    (pm : Bool) :
    ∀ fuel b a, a - b ≤ fuel →
      (find_entry_loop oracle p target pm fuel b a).2 -
      (find_entry_loop oracle p target pm fuel b a).1 ≤ min_delta pm := by
  intro fuel
  induction fuel with
  | zero =>
    intro b a h
    exact le_trans h (Nat.zero_le _)
  | succ n ih =>
    intro b a h
    simp only [find_entry_loop]
    split_ifs with hgap hm
    · have hm' := mid_bounds pm hgap
      exact ih b (b + half_delta (a - b)) (by omega)
    · have hm' := mid_bounds pm hgap
      exact ih (b + half_delta (a - b)) a (by omega)
    · exact Nat.le_of_not_lt hgap

/-- The `after` endpoint kept by the entry bisection is always an instant
confirmed to match the target (given that the initial `after` matches). -/
theorem find_entry_loop_confirmed (oracle : Oracle) (p : Planet)
    (target : Sign) (pm : Bool) :
    ∀ fuel b a, signs_match (oracle p a) target = true →
      signs_match
        (oracle p (find_entry_loop oracle p target pm fuel b a).2)
        target = true := by
  intro fuel
  induction fuel with
  | zero => intro b a h; exact h
  | succ n ih =>
    intro b a h
    simp only [find_entry_loop]
    split_ifs with hgap hm
    · exact ih _ _ hm
    · exact ih _ _ h
    · exact h

/-- Exit-bisection analogue of `find_entry_loop_bounds`. -/
theorem find_exit_loop_bounds (oracle : Oracle) (p : Planet) (target : Sign)
    (pm : Bool) :
    ∀ fuel b a, b ≤ a →
      b ≤ (find_exit_loop oracle p target pm fuel b a).1 ∧
      (find_exit_loop oracle p target pm fuel b a).1 ≤
        (find_exit_loop oracle p target pm fuel b a).2 ∧
      (find_exit_loop oracle p target pm fuel b a).2 ≤ a := by
  intro fuel
  induction fuel with
  | zero => intro b a h; exact ⟨le_refl _, h, le_refl _⟩
  | succ n ih =>
    intro b a h
    simp only [find_exit_loop]
    split_ifs with hgap hm
    · have hm' := mid_bounds pm hgap
      have := ih (b + half_delta (a - b)) a (le_of_lt hm'.2)
      exact ⟨le_trans (le_of_lt hm'.1) this.1, this.2.1, this.2.2⟩
    · have hm' := mid_bounds pm hgap
      have := ih b (b + half_delta (a - b)) (le_of_lt hm'.1)
      exact ⟨this.1, this.2.1, le_trans this.2.2 (le_of_lt hm'.2)⟩
    · exact ⟨le_refl _, h, le_refl _⟩

/-- Exit-bisection analogue of `find_entry_loop_strict`. -/
theorem find_exit_loop_strict (oracle : Oracle) (p : Planet) (target : Sign)
    (pm : Bool) :
    ∀ fuel b a, b < a →
      (find_exit_loop oracle p target pm fuel b a).1 <
      (find_exit_loop oracle p target pm fuel b a).2 := by
  intro fuel
  induction fuel with
  | zero => intro b a h; exact h
  | succ n ih =>
    intro b a h
    simp only [find_exit_loop]
    split_ifs with hgap hm
    · exact ih _ _ (mid_bounds pm hgap).2
    · exact ih _ _ (mid_bounds pm hgap).1
    · exact h

/-- Exit-bisection analogue of `find_entry_loop_gap`. -/
theorem find_exit_loop_gap (oracle : Oracle) (p : Planet) (target : Sign)
    (pm : Bool) :
    ∀ fuel b a, a - b ≤ fuel →
      (find_exit_loop oracle p target pm fuel b a).2 -
      (find_exit_loop oracle p target pm fuel b a).1 ≤ min_delta pm := by
  intro fuel
  induction fuel with
  | zero =>
    intro b a h
    exact le_trans h (Nat.zero_le _)
  | succ n ih =>
    intro b a h
    simp only [find_exit_loop]
    split_ifs with hgap hm
    · have hm' := mid_bounds pm hgap
      exact ih (b + half_delta (a - b)) a (by omega)
    · have hm' := mid_bounds pm hgap
      exact ih b (b + half_delta (a - b)) (by omega)
    · exact Nat.le_of_not_lt hgap

/-- The `before` endpoint kept by the exit bisection is always an instant
confirmed to match the target (given that the initial `before` matches). -/
theorem find_exit_loop_confirmed (oracle : Oracle) (p : Planet)
    (target : Sign) (pm : Bool) :
    ∀ fuel b a, signs_match (oracle p b) target = true →
      signs_match
        (oracle p (find_exit_loop oracle p target pm fuel b a).1)
        target = true := by
  intro fuel
  induction fuel with
  | zero => intro b a h; exact h
  | succ n ih =>
    intro b a h
    simp only [find_exit_loop]
    split_ifs with hgap hm
    · exact ih _ _ hm
    · exact ih _ _ h
    · exact h

/-- When the membership predicate has a single upward transition at `t`
inside the initial bracket, the entry bisection keeps `t` inside the
bracket: the final `before` is strictly below `t` and the final `after` at
or above it. -/
theorem find_entry_loop_transition (oracle : Oracle) (p : Planet)
    (target : Sign) (pm : Bool) (b0 a0 t : Nat)
    (Hm : ∀ x, b0 ≤ x → x ≤ a0 →
      (signs_match (oracle p x) target = true ↔ t ≤ x)) :
    ∀ fuel b a, b0 ≤ b → a ≤ a0 → b < t → t ≤ a →
      (find_entry_loop oracle p target pm fuel b a).1 < t ∧
      t ≤ (find_entry_loop oracle p target pm fuel b a).2 := by
  intro fuel
  induction fuel with
  | zero => intro b a _ _ h3 h4; exact ⟨h3, h4⟩
  | succ n ih =>
    intro b a h1 h2 h3 h4
    simp only [find_entry_loop]
    split_ifs with hgap hm
    · have hmb := mid_bounds pm hgap
      have hmid : t ≤ b + half_delta (a - b) :=
        (Hm _ (le_trans h1 (le_of_lt hmb.1))
          (le_trans (le_of_lt hmb.2) h2)).1 hm
      exact ih b _ h1 (le_trans (le_of_lt hmb.2) h2) h3 hmid
    · have hmb := mid_bounds pm hgap
      have hmid : b + half_delta (a - b) < t := by
        by_contra hc
        exact hm ((Hm _ (le_trans h1 (le_of_lt hmb.1))
          (le_trans (le_of_lt hmb.2) h2)).2 (Nat.le_of_not_lt hc))
      exact ih _ a (le_trans h1 (le_of_lt hmb.1)) h2 hmid h4
    · exact ⟨h3, h4⟩

/-- When the membership predicate has a single downward transition at `t`
inside the initial bracket (matching strictly before `t`, not matching from
`t` on), the exit bisection keeps `t` inside the bracket. -/
theorem find_exit_loop_transition (oracle : Oracle) (p : Planet)
    (target : Sign) (pm : Bool) (b0 a0 t : Nat)
    (Hm : ∀ x, b0 ≤ x → x ≤ a0 →
      (signs_match (oracle p x) target = true ↔ x < t)) :
    ∀ fuel b a, b0 ≤ b → a ≤ a0 → b < t → t ≤ a →
      (find_exit_loop oracle p target pm fuel b a).1 < t ∧
      t ≤ (find_exit_loop oracle p target pm fuel b a).2 := by
  intro fuel
  induction fuel with
  | zero => intro b a _ _ h3 h4; exact ⟨h3, h4⟩
  | succ n ih =>
    intro b a h1 h2 h3 h4
    simp only [find_exit_loop]
    split_ifs with hgap hm
    · have hmb := mid_bounds pm hgap
      have hmid : b + half_delta (a - b) < t :=
        (Hm _ (le_trans h1 (le_of_lt hmb.1))
          (le_trans (le_of_lt hmb.2) h2)).1 hm
      exact ih _ a (le_trans h1 (le_of_lt hmb.1)) h2 hmid h4
    · have hmb := mid_bounds pm hgap
      have hmid : t ≤ b + half_delta (a - b) := by
        by_contra hc
        exact hm ((Hm _ (le_trans h1 (le_of_lt hmb.1))
          (le_trans (le_of_lt hmb.2) h2)).2 (Nat.lt_of_not_le hc))
      exact ih b _ h1 (le_trans (le_of_lt hmb.2) h2) h3 hmid
    · exact ⟨h3, h4⟩

/-! ## One-step unfolding lemmas for the scan loop -/

section StepLemmas

variable {oracle : Oracle} {p : Planet} {target : Sign} {pm : Bool}
variable {step s e : Nat} {fuel : Nat} {c : Nat} {en : Nat}

theorem loop_zero (oracle : Oracle) (p : Planet) (target : Sign) (pm : Bool)
    (step s e : Nat) (c : Nat) (in_sign : Bool) (entry : Option Nat) :
    find_ranges_loop oracle p target pm step s e 0 c in_sign entry = [] :=
  rfl

/-- OUTSIDE, sample does not match: advance. -/
theorem loop_out_nomatch {entry : Option Nat} (h1 : c ≤ e)
    (h2 : signs_match (oracle p c) target = false) :
    find_ranges_loop oracle p target pm step s e (fuel + 1) c false entry =
    find_ranges_loop oracle p target pm step s e fuel (c + step) false
      entry := by
  simp [find_ranges_loop, h1, h2]

/-- OUTSIDE, sample matches at the window start: enter with
`entry = start_date`, no bisection. -/
theorem loop_out_match_start (h1 : c ≤ e)
    (h2 : signs_match (oracle p c) target = true) (h3 : c = s)
    (entry : Option Nat) :
    find_ranges_loop oracle p target pm step s e (fuel + 1) c false entry =
    find_ranges_loop oracle p target pm step s e fuel (c + step) true
      (some s) := by
  subst h3
  simp [find_ranges_loop, h1, h2]

/-- OUTSIDE, sample matches after the window start: enter with a bisected
entry instant. -/
theorem loop_out_match (h1 : c ≤ e)
    (h2 : signs_match (oracle p c) target = true) (h3 : c ≠ s)
    (entry : Option Nat) :
    find_ranges_loop oracle p target pm step s e (fuel + 1) c false entry =
    find_ranges_loop oracle p target pm step s e fuel (c + step) true
      (some (find_entry_point oracle p target pm (c - step) c)) := by
  simp [find_ranges_loop, h1, h2, h3]

/-- INSIDE, sample still matches: advance. -/
theorem loop_in_match {entry : Option Nat} (h1 : c ≤ e)
    (h2 : signs_match (oracle p c) target = true) :
    find_ranges_loop oracle p target pm step s e (fuel + 1) c true entry =
    find_ranges_loop oracle p target pm step s e fuel (c + step) true
      entry := by
  simp [find_ranges_loop, h1, h2]

/-- INSIDE, sample no longer matches: bisect the exit, emit, go OUTSIDE. -/
theorem loop_in_nomatch (h1 : c ≤ e)
    (h2 : signs_match (oracle p c) target = false) :
    find_ranges_loop oracle p target pm step s e (fuel + 1) c true (some en) =
    ⟨en, find_exit_point oracle p target pm (c - step) c, target⟩ ::
      find_ranges_loop oracle p target pm step s e fuel (c + step) false
        none := by
  simp [find_ranges_loop, h1, h2]

/-- INSIDE with no recorded entry, sample no longer matches: nothing is
emitted (the `entry_date is not None` guard). -/
theorem loop_in_nomatch_none (h1 : c ≤ e)
    (h2 : signs_match (oracle p c) target = false) :
    find_ranges_loop oracle p target pm step s e (fuel + 1) c true none =
    find_ranges_loop oracle p target pm step s e fuel (c + step) false
      none := by
  simp [find_ranges_loop, h1, h2]

/-- Past the window while OUTSIDE: the scan ends empty. -/
theorem loop_done_out {entry : Option Nat} (h1 : ¬ c ≤ e) :
    find_ranges_loop oracle p target pm step s e (fuel + 1) c false entry =
    [] := by
  simp [find_ranges_loop, h1]

/-- Past the window while INSIDE and the label still matches at
`end_date`: emit a final interval ending exactly at `end_date`. -/
theorem loop_done_in_match (h1 : ¬ c ≤ e)
    (h2 : signs_match (oracle p e) target = true) :
    find_ranges_loop oracle p target pm step s e (fuel + 1) c true (some en) =
    [⟨en, e, target⟩] := by
  simp [find_ranges_loop, h1, h2]

/-- Past the window while INSIDE but the label no longer matches at
`end_date`: bisect the missed exit and emit. -/
theorem loop_done_in_nomatch (h1 : ¬ c ≤ e)
    (h2 : signs_match (oracle p e) target = false) :
    find_ranges_loop oracle p target pm step s e (fuel + 1) c true (some en) =
    [⟨en,
      find_exit_point oracle p target pm (min (c - step) e) e,
      target⟩] := by
  simp [find_ranges_loop, h1, h2]

/-- Past the window while INSIDE with no recorded entry: nothing to emit. -/
theorem loop_done_in_none (h1 : ¬ c ≤ e) :
    find_ranges_loop oracle p target pm step s e (fuel + 1) c true none =
    [] := by
  simp [find_ranges_loop, h1]

end StepLemmas

/-! ## Scan loop invariants -/

/-- Combined invariants of the scan loop over the two reachable state
shapes (OUTSIDE with no recorded entry, INSIDE with a recorded entry):
the emitted intervals are chained by `end_ ≤ start` of the successor;
an OUTSIDE call only emits intervals starting at or after
`floor_to_quantum pm (current - step)`; an INSIDE call's first emitted
interval starts exactly at the recorded entry. -/
theorem find_ranges_loop_invariants (oracle : Oracle) (p : Planet)
    (target : Sign) (pm : Bool) (step s e : Nat) :
    ∀ fuel,
      (∀ c, List.Chain' (fun r1 r2 => r1.end_ ≤ r2.start)
        (find_ranges_loop oracle p target pm step s e fuel c false none)) ∧
      (∀ c en, List.Chain' (fun r1 r2 => r1.end_ ≤ r2.start)
        (find_ranges_loop oracle p target pm step s e fuel c true (some en))) ∧
      (∀ c r,
        (find_ranges_loop oracle p target pm step s e fuel c false
          none).head? = some r →
        floor_to_quantum pm (c - step) ≤ r.start) ∧
      (∀ c en r,
        (find_ranges_loop oracle p target pm step s e fuel c true
          (some en)).head? = some r →
        r.start = en) := by
  intro fuel
  induction fuel with
  | zero =>
    refine ⟨fun c => List.chain'_nil, fun c en => List.chain'_nil,
      fun c r h => ?_, fun c en r h => ?_⟩ <;> simp [loop_zero] at h
  | succ n ih =>
    obtain ⟨ih1, ih2, ih3, ih4⟩ := ih
    refine ⟨fun c => ?_, fun c en => ?_, fun c r h => ?_, fun c en r h => ?_⟩
    · by_cases hce : c ≤ e
      · cases hm : signs_match (oracle p c) target
        · rw [loop_out_nomatch hce hm]
          exact ih1 _
        · by_cases hcs : c = s
          · rw [loop_out_match_start hce hm hcs]
            exact ih2 _ _
          · rw [loop_out_match hce hm hcs]
            exact ih2 _ _
      · rw [loop_done_out hce]
        exact List.chain'_nil
    · by_cases hce : c ≤ e
      · cases hm : signs_match (oracle p c) target
        · rw [loop_in_nomatch hce hm]
          refine List.chain'_cons'.2 ⟨fun r2 h2 => ?_, ih1 _⟩
          have hb := find_exit_loop_bounds oracle p target pm
            (c - (c - step)) (c - step) c (Nat.sub_le c step)
          have hx : find_exit_point oracle p target pm (c - step) c ≤
              floor_to_quantum pm c := by
            unfold find_exit_point
            exact floor_to_quantum_mono pm (le_trans hb.2.1 hb.2.2)
          have hr2 := ih3 _ _ h2
          rw [Nat.add_sub_cancel] at hr2
          exact le_trans hx hr2
        · rw [loop_in_match hce hm]
          exact ih2 _ _
      · cases hend : signs_match (oracle p e) target
        · rw [loop_done_in_nomatch hce hend]
          exact List.chain'_singleton _
        · rw [loop_done_in_match hce hend]
          exact List.chain'_singleton _
    · by_cases hce : c ≤ e
      · cases hm : signs_match (oracle p c) target
        · rw [loop_out_nomatch hce hm] at h
          have h3 := ih3 _ _ h
          rw [Nat.add_sub_cancel] at h3
          exact le_trans (floor_to_quantum_mono pm (Nat.sub_le c step)) h3
        · by_cases hcs : c = s
          · rw [loop_out_match_start hce hm hcs] at h
            have h4 := ih4 _ _ _ h
            rw [h4, ← hcs]
            exact le_trans (floor_to_quantum_le pm _) (Nat.sub_le c step)
          · rw [loop_out_match hce hm hcs] at h
            have h4 := ih4 _ _ _ h
            rw [h4]
            have hb := find_entry_loop_bounds oracle p target pm
              (c - (c - step)) (c - step) c (Nat.sub_le c step)
            unfold find_entry_point
            exact floor_to_quantum_mono pm (le_trans hb.1 hb.2.1)
      · rw [loop_done_out hce] at h
        simp at h
    · by_cases hce : c ≤ e
      · cases hm : signs_match (oracle p c) target
        · rw [loop_in_nomatch hce hm] at h
          simp only [List.head?_cons, Option.some.injEq] at h
          rw [← h]
        · rw [loop_in_match hce hm] at h
          exact ih4 _ _ _ h
      · cases hend : signs_match (oracle p e) target
        · rw [loop_done_in_nomatch hce hend] at h
          simp only [List.head?_cons, Option.some.injEq] at h
          rw [← h]
        · rw [loop_done_in_match hce hend] at h
          simp only [List.head?_cons, Option.some.injEq] at h
          rw [← h]

/-! ## Congruence in the oracle: only the membership predicate matters -/

theorem find_entry_loop_congr (o1 o2 : Oracle) (p : Planet) (target : Sign)
    (pm : Bool)
    (H : ∀ x, signs_match (o1 p x) target = signs_match (o2 p x) target) :
    ∀ fuel b a, find_entry_loop o1 p target pm fuel b a =
      find_entry_loop o2 p target pm fuel b a := by
  intro fuel
  induction fuel with
  | zero => intro b a; rfl
  | succ n ih => intro b a; simp only [find_entry_loop, H, ih]

theorem find_exit_loop_congr (o1 o2 : Oracle) (p : Planet) (target : Sign)
    (pm : Bool)
    (H : ∀ x, signs_match (o1 p x) target = signs_match (o2 p x) target) :
    ∀ fuel b a, find_exit_loop o1 p target pm fuel b a =
      find_exit_loop o2 p target pm fuel b a := by
  intro fuel
  induction fuel with
  | zero => intro b a; rfl
  | succ n ih => intro b a; simp only [find_exit_loop, H, ih]

theorem find_entry_point_congr (o1 o2 : Oracle) (p : Planet) (target : Sign)
    (pm : Bool)
    (H : ∀ x, signs_match (o1 p x) target = signs_match (o2 p x) target)
    (b a : Nat) :
    find_entry_point o1 p target pm b a = find_entry_point o2 p target pm b a := by
  unfold find_entry_point
  rw [find_entry_loop_congr o1 o2 p target pm H]

theorem find_exit_point_congr (o1 o2 : Oracle) (p : Planet) (target : Sign)
    (pm : Bool)
    (H : ∀ x, signs_match (o1 p x) target = signs_match (o2 p x) target)
    (b a : Nat) :
    find_exit_point o1 p target pm b a = find_exit_point o2 p target pm b a := by
  unfold find_exit_point
  rw [find_exit_loop_congr o1 o2 p target pm H]

theorem find_ranges_loop_congr (o1 o2 : Oracle) (p : Planet) (target : Sign)
    (pm : Bool) (step s e : Nat)
    (H : ∀ x, signs_match (o1 p x) target = signs_match (o2 p x) target) :
    ∀ fuel c in_sign entry,
      find_ranges_loop o1 p target pm step s e fuel c in_sign entry =
      find_ranges_loop o2 p target pm step s e fuel c in_sign entry := by
  intro fuel
  induction fuel with
  | zero => intro c in_sign entry; rfl
  | succ n ih =>
    intro c in_sign entry
    simp only [find_ranges_loop, H, ih,
      find_entry_point_congr o1 o2 p target pm H,
      find_exit_point_congr o1 o2 p target pm H]

/-! ## Bounds on emitted interval endpoints -/

/-- The exit point never exceeds the upper end of its bracket. -/
theorem find_exit_point_le (oracle : Oracle) (p : Planet) (target : Sign)
    (pm : Bool) {b a : Nat} (h : b ≤ a) :
    find_exit_point oracle p target pm b a ≤ a := by
  unfold find_exit_point
  have hb := find_exit_loop_bounds oracle p target pm (a - b) b a h
  exact le_trans (floor_to_quantum_le pm _) (le_trans hb.2.1 hb.2.2)

/-- Every interval the scan loop emits ends at or before `end_date`. -/
theorem find_ranges_loop_end_le (oracle : Oracle) (p : Planet)
    (target : Sign) (pm : Bool) (step s e : Nat) :
    ∀ fuel c in_sign entry r,
      r ∈ find_ranges_loop oracle p target pm step s e fuel c in_sign entry →
      r.end_ ≤ e := by
  intro fuel
  induction fuel with
  | zero => intro c in_sign entry r h; simp [loop_zero] at h
  | succ n ih =>
    intro c in_sign entry r h
    by_cases hce : c ≤ e
    · cases hm : signs_match (oracle p c) target
      · cases in_sign
        · rw [loop_out_nomatch hce hm] at h
          exact ih _ _ _ _ h
        · cases entry with
          | none =>
            rw [loop_in_nomatch_none hce hm] at h
            exact ih _ _ _ _ h
          | some en =>
            rw [loop_in_nomatch hce hm] at h
            rcases List.mem_cons.1 h with h | h
            · rw [h]
              exact le_trans
                (find_exit_point_le oracle p target pm (Nat.sub_le c step))
                hce
            · exact ih _ _ _ _ h
      · cases in_sign
        · by_cases hcs : c = s
          · rw [loop_out_match_start hce hm hcs] at h
            exact ih _ _ _ _ h
          · rw [loop_out_match hce hm hcs] at h
            exact ih _ _ _ _ h
        · rw [loop_in_match hce hm] at h
          exact ih _ _ _ _ h
    · cases in_sign
      · rw [loop_done_out hce] at h
        simp at h
      · cases entry with
        | none =>
          rw [loop_done_in_none hce] at h
          simp at h
        | some en =>
          cases hend : signs_match (oracle p e) target
          · rw [loop_done_in_nomatch hce hend] at h
            simp only [List.mem_singleton] at h
            rw [h]
            exact find_exit_point_le oracle p target pm (min_le_right _ _)
          · rw [loop_done_in_match hce hend] at h
            simp only [List.mem_singleton] at h
            rw [h]

/-- The scan loop emits at most one interval per unit of fuel. -/
theorem find_ranges_loop_length_le (oracle : Oracle) (p : Planet)
    (target : Sign) (pm : Bool) (step s e : Nat) :
    ∀ fuel c in_sign entry,
      (find_ranges_loop oracle p target pm step s e fuel c in_sign
        entry).length ≤ fuel := by
  intro fuel
  induction fuel with
  | zero => intro c in_sign entry; simp [loop_zero]
  | succ n ih =>
    intro c in_sign entry
    by_cases hce : c ≤ e
    · cases hm : signs_match (oracle p c) target
      · cases in_sign
        · rw [loop_out_nomatch hce hm]
          exact le_trans (ih _ _ _) (Nat.le_succ n)
        · cases entry with
          | none =>
            rw [loop_in_nomatch_none hce hm]
            exact le_trans (ih _ _ _) (Nat.le_succ n)
          | some en =>
            rw [loop_in_nomatch hce hm]
            simpa using Nat.succ_le_succ (ih _ _ _)
      · cases in_sign
        · by_cases hcs : c = s
          · rw [loop_out_match_start hce hm hcs]
            exact le_trans (ih _ _ _) (Nat.le_succ n)
          · rw [loop_out_match hce hm hcs]
            exact le_trans (ih _ _ _) (Nat.le_succ n)
        · rw [loop_in_match hce hm]
          exact le_trans (ih _ _ _) (Nat.le_succ n)
    · cases in_sign
      · rw [loop_done_out hce]
        simp
      · cases entry with
        | none =>
          rw [loop_done_in_none hce]
          simp
        | some en =>
          cases hend : signs_match (oracle p e) target
          · rw [loop_done_in_nomatch hce hend]
            simp
          · rw [loop_done_in_match hce hend]
            simp

/-! ## Fuel-sufficient behaviour of the INSIDE state -/

/-- With sufficient fuel, a scan resumed INSIDE with recorded entry `en`
produces a nonempty output whose first interval starts at `en` and carries
the target sign. -/
theorem find_ranges_loop_inside_result (oracle : Oracle) (p : Planet)
    (target : Sign) (pm : Bool) (step s e : Nat) :
    ∀ fuel c en, 1 ≤ fuel → e + step < c + fuel * step →
      ∃ x rest,
        find_ranges_loop oracle p target pm step s e fuel c true (some en) =
          ⟨en, x, target⟩ :: rest := by
  intro fuel
  induction fuel with
  | zero => intro c en h1 _; omega
  | succ n ih =>
    intro c en _ hfu
    by_cases hce : c ≤ e
    · rcases Nat.eq_zero_or_pos n with h0 | h1
      · exfalso
        subst h0
        have hmul : 1 * step = step := Nat.one_mul step
        omega
      · cases hm : signs_match (oracle p c) target
        · rw [loop_in_nomatch hce hm]
          exact ⟨_, _, rfl⟩
        · rw [loop_in_match hce hm]
          refine ih _ _ h1 ?_
          have hmul : (n + 1) * step = n * step + step := by ring
          omega
    · cases hend : signs_match (oracle p e) target
      · rw [loop_done_in_nomatch hce hend]
        exact ⟨_, _, rfl⟩
      · rw [loop_done_in_match hce hend]
        exact ⟨_, _, rfl⟩

/-- With sufficient fuel, if the oracle matches the target at the last
coarse sample reachable from `current` and also at `end_date`, the scan's
final emitted interval ends exactly at `end_date`. -/
theorem find_ranges_loop_last_end (oracle : Oracle) (p : Planet)
    (target : Sign) (pm : Bool) (step s e : Nat) (hstep : 0 < step)
    (hmatch_e : signs_match (oracle p e) target = true) :
    ∀ fuel c in_sign entry, 1 ≤ fuel → e + step < c + fuel * step →
      (in_sign = true → ∃ en, entry = some en) →
      (c ≤ e →
        signs_match (oracle p (last_sample step c e)) target = true) →
      (¬ c ≤ e → in_sign = true) →
      (find_ranges_loop oracle p target pm step s e fuel c in_sign
        entry).getLast?.map DateRange.end_ = some e := by
  intro fuel
  induction fuel with
  | zero => intro c in_sign entry h1 _ _ _ _; omega
  | succ n ih =>
    intro c in_sign entry _ hfu hentry hlast hpast
    by_cases hce : c ≤ e
    · have h1n : 1 ≤ n := by
        rcases Nat.eq_zero_or_pos n with h0 | h1
        · subst h0; rw [Nat.succ_mul, Nat.zero_mul] at hfu; omega
        · exact h1
      have hfu' : e + step < (c + step) + n * step := by
        rw [Nat.succ_mul] at hfu; omega
      by_cases hnext : c + step ≤ e
      · have hls : last_sample step (c + step) e = last_sample step c e := by
          unfold last_sample
          rw [Nat.div_eq_sub_div hstep (by omega : step ≤ e - c),
            Nat.sub_sub, Nat.mul_add, Nat.mul_one]
          ring
        have hlast' : (c + step ≤ e →
            signs_match (oracle p (last_sample step (c + step) e)) target =
              true) := fun _ => by rw [hls]; exact hlast hce
        cases hm : signs_match (oracle p c) target
        · cases in_sign
          · rw [loop_out_nomatch hce hm]
            exact ih _ _ _ h1n hfu' (by simp) hlast'
              (fun hc => absurd hnext hc)
          · obtain ⟨en, hen⟩ := hentry rfl
            subst hen
            rw [loop_in_nomatch hce hm]
            have hrest := ih (c + step) false none h1n hfu' (by simp)
              hlast' (fun hc => absurd hnext hc)
            rcases hl : find_ranges_loop oracle p target pm step s e n
                (c + step) false none with _ | ⟨r0, rest0⟩
            · rw [hl] at hrest; simp at hrest
            · rw [hl] at hrest
              rw [List.getLast?_cons_cons]
              exact hrest
        · cases in_sign
          · by_cases hcs : c = s
            · rw [loop_out_match_start hce hm hcs]
              exact ih _ _ _ h1n hfu' (fun _ => ⟨s, rfl⟩) hlast'
                (fun hc => absurd hnext hc)
            · rw [loop_out_match hce hm hcs]
              exact ih _ _ _ h1n hfu' (fun _ => ⟨_, rfl⟩) hlast'
                (fun hc => absurd hnext hc)
          · obtain ⟨en, hen⟩ := hentry rfl
            subst hen
            rw [loop_in_match hce hm]
            exact ih _ _ _ h1n hfu' (fun _ => ⟨en, rfl⟩) hlast'
              (fun hc => absurd hnext hc)
      · have hcl : last_sample step c e = c := by
          unfold last_sample
          rw [Nat.div_eq_of_lt (by omega : e - c < step), Nat.mul_zero]
          ring
        have hmc : signs_match (oracle p c) target = true := by
          have := hlast hce; rwa [hcl] at this
        cases in_sign
        · by_cases hcs : c = s
          · rw [loop_out_match_start hce hmc hcs]
            exact ih _ _ _ h1n hfu' (fun _ => ⟨s, rfl⟩)
              (fun hc => absurd hc hnext) (fun _ => rfl)
          · rw [loop_out_match hce hmc hcs]
            exact ih _ _ _ h1n hfu' (fun _ => ⟨_, rfl⟩)
              (fun hc => absurd hc hnext) (fun _ => rfl)
        · obtain ⟨en, hen⟩ := hentry rfl
          subst hen
          rw [loop_in_match hce hmc]
          exact ih _ _ _ h1n hfu' (fun _ => ⟨en, rfl⟩)
            (fun hc => absurd hc hnext) (fun _ => rfl)
    · have hin : in_sign = true := hpast hce
      subst hin
      obtain ⟨en, hen⟩ := hentry rfl
      subst hen
      rw [loop_done_in_match hce hmatch_e]
      rfl

/-! ## Iteration-count bounds for the bisection loops -/

/-- The entry bisection performs at most `k + 1` halving iterations when
the initial gap is at most `(min_delta + 1) * 2 ^ k`, for any fuel. -/
theorem find_entry_count_le (oracle : Oracle) (p : Planet) (target : Sign)
    (pm : Bool) :
    ∀ k fuel b a, a - b ≤ (min_delta pm + 1) * 2 ^ k →
      find_entry_count oracle p target pm fuel b a ≤ k + 1 := by
  intro k
  induction k with
  | zero =>
    intro fuel b a hk
    cases fuel with
    | zero => exact Nat.zero_le _
    | succ n =>
      simp only [find_entry_count]
      split_ifs with hgap hm
      · have hm' := mid_bounds pm hgap
        have hstop : find_entry_count oracle p target pm n b
            (b + half_delta (a - b)) = 0 := by
          cases n with
          | zero => rfl
          | succ m =>
            simp only [find_entry_count]
            rw [if_neg]
            have h2 := half_delta_ub (a - b)
            have h3 := min_delta_pos pm
            simp only [pow_zero, Nat.mul_one] at hk
            omega
        omega
      · have hm' := mid_bounds pm hgap
        have hstop : find_entry_count oracle p target pm n
            (b + half_delta (a - b)) a = 0 := by
          cases n with
          | zero => rfl
          | succ m =>
            simp only [find_entry_count]
            rw [if_neg]
            have h2 := half_delta_lb (a - b)
            have h3 := min_delta_pos pm
            simp only [pow_zero, Nat.mul_one] at hk
            omega
        omega
      · exact Nat.zero_le _
  | succ k ihk =>
    intro fuel b a hk
    cases fuel with
    | zero => exact Nat.zero_le _
    | succ n =>
      simp only [find_entry_count]
      split_ifs with hgap hm
      · have h2 := half_delta_ub (a - b)
        have hrec := ihk n b (b + half_delta (a - b))
          (by
            have hp : (min_delta pm + 1) * 2 ^ (k + 1) =
                (min_delta pm + 1) * 2 ^ k + (min_delta pm + 1) * 2 ^ k := by
              ring
            omega)
        omega
      · have h2 := half_delta_lb (a - b)
        have hrec := ihk n (b + half_delta (a - b)) a
          (by
            have hp : (min_delta pm + 1) * 2 ^ (k + 1) =
                (min_delta pm + 1) * 2 ^ k + (min_delta pm + 1) * 2 ^ k := by
              ring
            omega)
        omega
      · exact Nat.zero_le _

/-- Exit-bisection analogue of `find_entry_count_le`. -/
theorem find_exit_count_le (oracle : Oracle) (p : Planet) (target : Sign)
    (pm : Bool) :
    ∀ k fuel b a, a - b ≤ (min_delta pm + 1) * 2 ^ k →
      find_exit_count oracle p target pm fuel b a ≤ k + 1 := by
  intro k
  induction k with
  | zero =>
    intro fuel b a hk
    cases fuel with
    | zero => exact Nat.zero_le _
    | succ n =>
      simp only [find_exit_count]
      split_ifs with hgap hm
      · have hm' := mid_bounds pm hgap
        have hstop : find_exit_count oracle p target pm n
            (b + half_delta (a - b)) a = 0 := by
          cases n with
          | zero => rfl
          | succ m =>
            simp only [find_exit_count]
            rw [if_neg]
            have h2 := half_delta_lb (a - b)
            have h3 := min_delta_pos pm
            simp only [pow_zero, Nat.mul_one] at hk
            omega
        omega
      · have hm' := mid_bounds pm hgap
        have hstop : find_exit_count oracle p target pm n b
            (b + half_delta (a - b)) = 0 := by
          cases n with
          | zero => rfl
          | succ m =>
            simp only [find_exit_count]
            rw [if_neg]
            have h2 := half_delta_ub (a - b)
            have h3 := min_delta_pos pm
            simp only [pow_zero, Nat.mul_one] at hk
            omega
        omega
      · exact Nat.zero_le _
  | succ k ihk =>
    intro fuel b a hk
    cases fuel with
    | zero => exact Nat.zero_le _
    | succ n =>
      simp only [find_exit_count]
      split_ifs with hgap hm
      · have h2 := half_delta_lb (a - b)
        have hrec := ihk n (b + half_delta (a - b)) a
          (by
            have hp : (min_delta pm + 1) * 2 ^ (k + 1) =
                (min_delta pm + 1) * 2 ^ k + (min_delta pm + 1) * 2 ^ k := by
              ring
            omega)
        omega
      · have h2 := half_delta_ub (a - b)
        have hrec := ihk n b (b + half_delta (a - b))
          (by
            have hp : (min_delta pm + 1) * 2 ^ (k + 1) =
                (min_delta pm + 1) * 2 ^ k + (min_delta pm + 1) * 2 ^ k := by
              ring
            omega)
        omega
      · exact Nat.zero_le _

/-! ## Claim theorems -/

/-- C2 counterexample: the Moon searched for `taurus` under day precision
over the window `[720 min, 3600 min]` against an oracle that holds `taurus`
before `1500 min` returns the single interval `(720 min, 0)`: its `end` is
strictly before its `start`, so `start < end` fails for a returned
interval (the exit bisection truncated the boundary to the previous
midnight, below the unaligned window start). -/
theorem c2_ordering_counterexample :
    find_ranges oracle_inverted Planet.moon (Sign.zodiac ZodiacSign.taurus)
      false 43200000000 216000000000 =
      [⟨43200000000, 0, Sign.zodiac ZodiacSign.taurus⟩] ∧
    ¬ (43200000000 < (0 : Nat)) :=
  ⟨rfl, by decide⟩

/-- C2 (amended): for every input, consecutive intervals returned by
`find_ranges` satisfy `intervals[i].end ≤ intervals[i+1].start`
(non-decreasing order, no overlap); the claim's other conjunct
`start < end` does not hold (see the counterexample), so it is dropped. -/
theorem c2_ordering_amended (oracle : Oracle) (p : Planet) (target : Sign)
    (pm : Bool) (s e : Nat) :
    List.Chain' (fun r1 r2 => r1.end_ ≤ r2.start)
      (find_ranges oracle p target pm s e) := by
  simp only [find_ranges]
  exact (find_ranges_loop_invariants oracle p target pm _ s e _).1 s

/-- C5 counterexample: two `find_ranges` calls with identical explicit
arguments but different values of the process-wide precision flag return
different interval lists, so the result is not a function of the explicit
arguments alone. -/
theorem c5_quantum_flag_counterexample :
    find_ranges oracle_threshold Planet.moon (Sign.zodiac ZodiacSign.taurus)
      true 0 172800000000 ≠
    find_ranges oracle_threshold Planet.moon (Sign.zodiac ZodiacSign.taurus)
      false 0 172800000000 := by
  decide

/-- C5 (amended): the precision quantum is read from the process-wide
mutable `Config._precision_minutes` flag inside the bisection routines
(modelled as the `precision_minutes` input), and `find_ranges` genuinely
depends on it: under minute precision the entry boundary is `750 min`,
under day precision it is `1 d`, for the same explicit arguments. -/
theorem c5_quantum_flag_amended :
    find_ranges oracle_threshold Planet.moon (Sign.zodiac ZodiacSign.taurus)
      true 0 172800000000 =
      [⟨45000000000, 172800000000, Sign.zodiac ZodiacSign.taurus⟩] ∧
    find_ranges oracle_threshold Planet.moon (Sign.zodiac ZodiacSign.taurus)
      false 0 172800000000 =
      [⟨86400000000, 172800000000, Sign.zodiac ZodiacSign.taurus⟩] :=
  ⟨rfl, rfl⟩

/-- C6: the instant each bisection returns before quantum truncation is the
endpoint confirmed to match the target: the final `after` of the entry
bisection matches whenever the initial `after` does, and the final `before`
of the exit bisection matches whenever the initial `before` does (the fuel
shown is the one `find_entry_point`/`find_exit_point` supply). -/
theorem c6_confirmed_side (oracle : Oracle) (p : Planet) (target : Sign)
    (pm : Bool) (b a : Nat) :
    (signs_match (oracle p a) target = true →
      signs_match
        (oracle p (find_entry_loop oracle p target pm (a - b) b a).2)
        target = true) ∧
    (signs_match (oracle p b) target = true →
      signs_match
        (oracle p (find_exit_loop oracle p target pm (a - b) b a).1)
        target = true) :=
  ⟨fun h => find_entry_loop_confirmed oracle p target pm (a - b) b a h,
   fun h => find_exit_loop_confirmed oracle p target pm (a - b) b a h⟩

/-- C6 witness: at concrete entry and exit bisections the returned pre-floor
instants are confirmed to match the target. -/
theorem c6_confirmed_side_witness :
    signs_match
      (oracle_threshold Planet.moon
        (find_entry_loop oracle_threshold Planet.moon
          (Sign.zodiac ZodiacSign.taurus) true (86400000000 - 0)
          0 86400000000).2)
      (Sign.zodiac ZodiacSign.taurus) = true ∧
    signs_match
      (oracle_exit_far Planet.mars
        (find_exit_loop oracle_exit_far Planet.mars
          (Sign.zodiac ZodiacSign.taurus) false (259140000000 - 86340000000)
          86340000000 259140000000).1)
      (Sign.zodiac ZodiacSign.taurus) = true :=
  ⟨(c6_confirmed_side oracle_threshold Planet.moon
      (Sign.zodiac ZodiacSign.taurus) true 0 86400000000).1 (by decide),
   (c6_confirmed_side oracle_exit_far Planet.mars
      (Sign.zodiac ZodiacSign.taurus) false 86340000000 259140000000).2
      (by decide)⟩

/-- C7: an undefined classification is not an error: `_signs_match` maps
`None` to `False` for every target, and the whole search depends on the
oracle only through the membership predicate, so an oracle returning `None`
at some instants behaves exactly like one returning a non-matching label
there (the state machine proceeds normally). -/
theorem c7_none_not_error :
    (∀ sgn : Sign, signs_match none sgn = false) ∧
    (∀ (o1 o2 : Oracle) (p : Planet) (target : Sign) (pm : Bool)
      (s e : Nat),
      (∀ x, signs_match (o1 p x) target = signs_match (o2 p x) target) →
      find_ranges o1 p target pm s e = find_ranges o2 p target pm s e) := by
  refine ⟨fun sgn => rfl, fun o1 o2 p target pm s e H => ?_⟩
  simp only [find_ranges]
  exact find_ranges_loop_congr o1 o2 p target pm _ s e H _ s false none

/-- C7 witness: the all-`None` oracle and the all-`aries` oracle (`aries`
is not the target) induce the same membership predicate for target
`taurus` and hence the same search result. -/
theorem c7_none_not_error_witness :
    signs_match none (Sign.zodiac ZodiacSign.taurus) = false ∧
    find_ranges oracle_undefined Planet.moon (Sign.zodiac ZodiacSign.taurus)
      false 0 86400000000 =
    find_ranges oracle_always_aries Planet.moon
      (Sign.zodiac ZodiacSign.taurus) false 0 86400000000 :=
  ⟨c7_none_not_error.1 (Sign.zodiac ZodiacSign.taurus),
   c7_none_not_error.2 oracle_undefined oracle_always_aries Planet.moon
     (Sign.zodiac ZodiacSign.taurus) false 0 86400000000 (fun _ => rfl)⟩

/-- C9: `ZodiacSign` and `Constellation` are integer-valued enumerations
compared by value, so `_signs_match` reports a match between
`ZodiacSign.TAURUS` (value 1) and `Constellation.ARIES` (value 1) although
their names differ, and a search for the constellation `Aries` matches an
oracle that always reports the tropical sign `Taurus`. -/
theorem c9_cross_domain_equality :
    signs_match (some (Sign.zodiac ZodiacSign.taurus))
      (Sign.constellation Constellation.aries) = true ∧
    ZodiacSign.display_name ZodiacSign.taurus ≠
      Constellation.display_name Constellation.aries ∧
    ZodiacSign.val ZodiacSign.taurus = 1 ∧
    Constellation.val Constellation.aries = 1 ∧
    find_ranges oracle_always_taurus Planet.moon
      (Sign.constellation Constellation.aries) false 0 86400000000 =
      [⟨0, 86400000000, Sign.constellation Constellation.aries⟩] := by
  refine ⟨rfl, ?_, rfl, rfl, rfl⟩
  decide

/-- C10: an interval's start may precede the window: with day precision, a
window starting at `100 min` (not a day boundary) and an entry at
`150 min`, Mercury's scan emits an interval starting at instant `0`,
strictly before the window start; and for every input, every emitted
interval's end is at or before `window.end`. -/
theorem c10_interval_bounds :
    (find_ranges oracle_early_entry Planet.mercury
      (Sign.zodiac ZodiacSign.taurus) false 6000000000 870000000000 =
      [⟨0, 870000000000, Sign.zodiac ZodiacSign.taurus⟩] ∧
      (0 : Nat) < 6000000000) ∧
    (∀ (oracle : Oracle) (p : Planet) (target : Sign) (pm : Bool)
      (s e : Nat) (r : DateRange),
      r ∈ find_ranges oracle p target pm s e → r.end_ ≤ e) := by
  refine ⟨⟨rfl, by decide⟩,
    fun oracle p target pm s e r hr => ?_⟩
  simp only [find_ranges] at hr
  exact find_ranges_loop_end_le oracle p target pm _ s e _ s false none r hr

/-- C10 witness: the universal bound applied at a concrete emitted
interval: the interval starting at `0` emitted by the Mercury search ends
at the window end `870000000000`, hence at or before it. -/
theorem c10_interval_bounds_witness :
    DateRange.end_ ⟨0, 870000000000, Sign.zodiac ZodiacSign.taurus⟩ ≤
      870000000000 :=
  c10_interval_bounds.2 oracle_early_entry Planet.mercury
    (Sign.zodiac ZodiacSign.taurus) false 6000000000 870000000000
    ⟨0, 870000000000, Sign.zodiac ZodiacSign.taurus⟩ (by decide)

/-- C3 counterexample: a single exit transition at `t = 2879 min` inside
the bracket `[1439 min, 4319 min]` (oracle in the target before `t`, out of
it from `t` on, confirmed at both endpoints) makes `_find_exit_point` under
day precision report instant `0`, which is `2879 min` — more than one
one-day quantum — before the true transition. -/
theorem c3_boundary_tightness_counterexample :
    find_exit_point oracle_exit_far Planet.mars (Sign.zodiac ZodiacSign.taurus)
      false 86340000000 259140000000 = 0 ∧
    signs_match (oracle_exit_far Planet.mars 86340000000)
      (Sign.zodiac ZodiacSign.taurus) = true ∧
    signs_match (oracle_exit_far Planet.mars 259140000000)
      (Sign.zodiac ZodiacSign.taurus) = false ∧
    min_delta false <
      172740000000 -
        find_exit_point oracle_exit_far Planet.mars
          (Sign.zodiac ZodiacSign.taurus) false 86340000000 259140000000 := by
  refine ⟨rfl, by decide, by decide, by decide⟩

/-- C3 (amended): when the membership predicate has exactly one transition
at `t` strictly inside `[before, after]`, the reported entry boundary is
within one precision quantum of `t` (strictly), while the reported exit
boundary is strictly below `t` and within two quanta of it (the extra
quantum comes from flooring the confirmed-inside endpoint); one quantum is
not guaranteed on the exit side (see the counterexample). -/
theorem c3_boundary_tightness_amended (oracle : Oracle) (p : Planet)
    (target : Sign) (pm : Bool) (b a t : Nat) (h1 : b < t) (h2 : t ≤ a) :
    ((∀ x, b ≤ x → x ≤ a →
        (signs_match (oracle p x) target = true ↔ t ≤ x)) →
      find_entry_point oracle p target pm b a < t + min_delta pm ∧
      t < find_entry_point oracle p target pm b a + min_delta pm) ∧
    ((∀ x, b ≤ x → x ≤ a →
        (signs_match (oracle p x) target = true ↔ x < t)) →
      find_exit_point oracle p target pm b a < t ∧
      t < find_exit_point oracle p target pm b a + 2 * min_delta pm) := by
  constructor
  · intro Hm
    have hinv := find_entry_loop_transition oracle p target pm b a t Hm
      (a - b) b a (le_refl b) (le_refl a) h1 h2
    have hgap := find_entry_loop_gap oracle p target pm (a - b) b a
      (le_refl _)
    have hfl := floor_to_quantum_le pm
      (find_entry_loop oracle p target pm (a - b) b a).2
    have hfl2 := lt_floor_to_quantum_add pm
      (find_entry_loop oracle p target pm (a - b) b a).2
    obtain ⟨hi1, hi2⟩ := hinv
    unfold find_entry_point
    constructor <;> omega
  · intro Hm
    have hinv := find_exit_loop_transition oracle p target pm b a t Hm
      (a - b) b a (le_refl b) (le_refl a) h1 h2
    have hgap := find_exit_loop_gap oracle p target pm (a - b) b a
      (le_refl _)
    have hfl := floor_to_quantum_le pm
      (find_exit_loop oracle p target pm (a - b) b a).1
    have hfl2 := lt_floor_to_quantum_add pm
      (find_exit_loop oracle p target pm (a - b) b a).1
    obtain ⟨hi1, hi2⟩ := hinv
    unfold find_exit_point
    constructor <;> omega

/-- C3 witness: the amended bounds applied to an entry bisection with its
single transition at `750 min` (minute precision) and an exit bisection
with its single transition at `2879 min` (day precision). -/
theorem c3_boundary_tightness_witness :
    (find_entry_point oracle_threshold Planet.moon
        (Sign.zodiac ZodiacSign.taurus) true 0 86400000000 <
        45000000000 + min_delta true ∧
      45000000000 <
        find_entry_point oracle_threshold Planet.moon
          (Sign.zodiac ZodiacSign.taurus) true 0 86400000000 +
          min_delta true) ∧
    (find_exit_point oracle_exit_far Planet.mars
        (Sign.zodiac ZodiacSign.taurus) false 86340000000 259140000000 <
        172740000000 ∧
      172740000000 <
        find_exit_point oracle_exit_far Planet.mars
          (Sign.zodiac ZodiacSign.taurus) false 86340000000 259140000000 +
          2 * min_delta false) :=
  ⟨(c3_boundary_tightness_amended oracle_threshold Planet.moon
      (Sign.zodiac ZodiacSign.taurus) true 0 86400000000 45000000000
      (by decide) (by decide)).1
      (fun x _ _ => by
        unfold oracle_threshold
        by_cases h : (45000000000 : Nat) ≤ x <;>
          simp [h, signs_match, Sign.val, ZodiacSign.val]),
   (c3_boundary_tightness_amended oracle_exit_far Planet.mars
      (Sign.zodiac ZodiacSign.taurus) false 86340000000 259140000000
      172740000000 (by decide) (by decide)).2
      (fun x _ _ => by
        unfold oracle_exit_far
        by_cases h : x < (172740000000 : Nat) <;>
          simp [h, signs_match, Sign.val, ZodiacSign.val])⟩

/-- C4 counterexample: the target label matches at `window.end`
(`2160 min`), but the Moon search over `[0, 2160 min]` emits one interval
ending at `0`, not at `window.end`: the oracle left the label before the
second sample and re-entered it after the last sample, so the scan ends
OUTSIDE and never looks at `window.end`. -/
theorem c4_window_edge_counterexample :
    signs_match (oracle_missed_end Planet.moon 129600000000)
      (Sign.zodiac ZodiacSign.taurus) = true ∧
    find_ranges oracle_missed_end Planet.moon (Sign.zodiac ZodiacSign.taurus)
      false 0 129600000000 = [⟨0, 0, Sign.zodiac ZodiacSign.taurus⟩] ∧
    (find_ranges oracle_missed_end Planet.moon
        (Sign.zodiac ZodiacSign.taurus) false 0
        129600000000).getLast?.map DateRange.end_ ≠ some 129600000000 :=
  ⟨by decide, rfl, by decide⟩

/-- C4 (amended): if the target label matches at `window.start`, the first
returned interval starts exactly at `window.start`; and if it matches at
the last coarse-scan sample (so the scan ends INSIDE) and also at
`window.end`, the last returned interval ends exactly at `window.end`.
The unamended second part, without the last-sample condition, fails (see
the counterexample). -/
theorem c4_window_edge_amended (oracle : Oracle) (p : Planet) (target : Sign)
    (pm : Bool) (s e : Nat) (hse : s < e) :
    (signs_match (oracle p s) target = true →
      (find_ranges oracle p target pm s e).head?.map DateRange.start =
        some s) ∧
    (signs_match
        (oracle p
          (last_sample (p.search_step_days * MICROSECONDS_PER_DAY) s e))
        target = true →
      signs_match (oracle p e) target = true →
      (find_ranges oracle p target pm s e).getLast?.map DateRange.end_ =
        some e) := by
  have hsp := step_pos p
  simp only [find_ranges]
  generalize hSt : Planet.search_step_days p * MICROSECONDS_PER_DAY = St
  rw [hSt] at hsp
  constructor
  · intro hm
    have h2 : (e - s) / St + 2 = ((e - s) / St + 1) + 1 := rfl
    rw [h2, loop_out_match_start (le_of_lt hse) hm rfl]
    obtain ⟨x, rest, hx⟩ :=
      find_ranges_loop_inside_result oracle p target pm St s e
        ((e - s) / St + 1) (s + St) s (Nat.le_add_left 1 _)
        (by
          have hdm := Nat.div_add_mod (e - s) St
          have hml := Nat.mod_lt (e - s) hsp
          have hexp : ((e - s) / St + 1) * St = (e - s) / St * St + St := by
            ring
          have hcomm : (e - s) / St * St = St * ((e - s) / St) :=
            Nat.mul_comm _ _
          omega)
    rw [hx]
    rfl
  · intro hlast hend
    exact find_ranges_loop_last_end oracle p target pm St s e hsp hend
      ((e - s) / St + 2) s false none (Nat.le_add_left 1 _)
      (by
        have hdm := Nat.div_add_mod (e - s) St
        have hml := Nat.mod_lt (e - s) hsp
        have hexp : ((e - s) / St + 2) * St = (e - s) / St * St + 2 * St := by
          ring
        have hcomm : (e - s) / St * St = St * ((e - s) / St) :=
          Nat.mul_comm _ _
        omega)
      (by simp)
      (fun _ => hlast)
      (fun hc => absurd (le_of_lt hse) hc)

/-- C4 witness: against an oracle that always reports the target, the Moon
search over `[0, 1 d]` starts its first interval exactly at the window
start and ends its last interval exactly at the window end. -/
theorem c4_window_edge_witness :
    (find_ranges oracle_always_taurus Planet.moon
        (Sign.zodiac ZodiacSign.taurus) false 0
        86400000000).head?.map DateRange.start = some 0 ∧
    (find_ranges oracle_always_taurus Planet.moon
        (Sign.zodiac ZodiacSign.taurus) false 0
        86400000000).getLast?.map DateRange.end_ = some 86400000000 :=
  ⟨(c4_window_edge_amended oracle_always_taurus Planet.moon
      (Sign.zodiac ZodiacSign.taurus) false 0 86400000000 (by decide)).1
      (by decide),
   (c4_window_edge_amended oracle_always_taurus Planet.moon
      (Sign.zodiac ZodiacSign.taurus) false 0 86400000000 (by decide)).2
      (by decide) (by decide)⟩

/-- C8: termination and finiteness: each bisection loop runs at most
`k + 1` halving iterations once the initial gap is at most
`(quantum + 1) · 2^k` — that is, `O(log2(|after - before| / quantum))`
iterations — at the fuel supplied by `_find_entry_point` and
`_find_exit_point`; and `find_ranges` returns a finite list of at most
`(end - start) / step + 2` intervals. -/
theorem c8_termination (oracle : Oracle) (p : Planet) (target : Sign)
    (pm : Bool) (s e : Nat) :
    (∀ k b a, a - b ≤ (min_delta pm + 1) * 2 ^ k →
      find_entry_count oracle p target pm (a - b) b a ≤ k + 1) ∧
    (∀ k b a, a - b ≤ (min_delta pm + 1) * 2 ^ k →
      find_exit_count oracle p target pm (a - b) b a ≤ k + 1) ∧
    (find_ranges oracle p target pm s e).length ≤
      (e - s) / (p.search_step_days * MICROSECONDS_PER_DAY) + 2 := by
  refine ⟨fun k b a hk => find_entry_count_le oracle p target pm k (a - b) b a hk,
    fun k b a hk => find_exit_count_le oracle p target pm k (a - b) b a hk,
    ?_⟩
  simp only [find_ranges]
  exact find_ranges_loop_length_le oracle p target pm _ s e _ s false none

/-- C8 witness: on a gap of one day plus one microsecond (at most twice
`quantum + 1` for the day quantum), both bisections run at most two
iterations, and a one-day Moon search returns at most three intervals. -/
theorem c8_termination_witness :
    find_entry_count oracle_threshold Planet.moon
      (Sign.zodiac ZodiacSign.taurus) false (86400000001 - 0) 0
      86400000001 ≤ 2 ∧
    find_exit_count oracle_threshold Planet.moon
      (Sign.zodiac ZodiacSign.taurus) false (86400000001 - 0) 0
      86400000001 ≤ 2 ∧
    (find_ranges oracle_threshold Planet.moon (Sign.zodiac ZodiacSign.taurus)
      false 0 86400000000).length ≤
      (86400000000 - 0) /
        (Planet.search_step_days Planet.moon * MICROSECONDS_PER_DAY) + 2 :=
  ⟨(c8_termination oracle_threshold Planet.moon
      (Sign.zodiac ZodiacSign.taurus) false 0 86400000000).1 1 0
      86400000001 (by decide),
   (c8_termination oracle_threshold Planet.moon
      (Sign.zodiac ZodiacSign.taurus) false 0 86400000000).2.1 1 0
      86400000001 (by decide),
   (c8_termination oracle_threshold Planet.moon
      (Sign.zodiac ZodiacSign.taurus) false 0 86400000000).2.2⟩

/-- C1: re-entry separation: for every planet, target label, precision
flag and window start, if the oracle's membership sequence at the eight
successive coarse samples `s, s+step, …, s+7·step` is
`out, out, in, in, out, out, in, in` (the pattern `A, A, B, B, A, A, B, B`
for target `B`), then `find_ranges` over `[s, s+7·step]` returns exactly
two intervals, and they are disjoint and non-adjacent
(`first.end < second.start`), with distinct starts and distinct ends. -/
theorem c1_reentry_separation (oracle : Oracle) (p : Planet) (target : Sign)
    (pm : Bool) (s step : Nat)
    (hst : step = Planet.search_step_days p * MICROSECONDS_PER_DAY)
    (h0 : signs_match (oracle p s) target = false)
    (h1 : signs_match (oracle p (s + step)) target = false)
    (h2 : signs_match (oracle p (s + 2 * step)) target = true)
    (h3 : signs_match (oracle p (s + 3 * step)) target = true)
    (h4 : signs_match (oracle p (s + 4 * step)) target = false)
    (h5 : signs_match (oracle p (s + 5 * step)) target = false)
    (h6 : signs_match (oracle p (s + 6 * step)) target = true)
    (h7 : signs_match (oracle p (s + 7 * step)) target = true) :
    (find_ranges oracle p target pm s (s + 7 * step)).length = 2 ∧
    ∀ r1 r2, find_ranges oracle p target pm s (s + 7 * step) = [r1, r2] →
      r1.end_ < r2.start ∧ r1.start < r2.start ∧ r1.end_ < r2.end_ := by
  have hsp : 0 < step := by rw [hst]; exact step_pos p
  have hmd : min_delta pm ≤ step := by
    rw [hst]; exact le_trans (min_delta_le_day pm) (step_ge_day p)
  have hmd0 := min_delta_pos pm
  have hlist : find_ranges oracle p target pm s (s + 7 * step) =
      [⟨find_entry_point oracle p target pm (s + 2 * step - step)
          (s + 2 * step),
        find_exit_point oracle p target pm (s + 4 * step - step)
          (s + 4 * step),
        target⟩,
       ⟨find_entry_point oracle p target pm (s + 6 * step - step)
          (s + 6 * step),
        s + 7 * step, target⟩] := by
    simp only [find_ranges]
    rw [← hst]
    have hfuel : (s + 7 * step - s) / step + 2 = 9 := by
      rw [Nat.add_sub_cancel_left, Nat.mul_div_cancel _ hsp]
    rw [hfuel]
    rw [loop_out_nomatch (by omega) h0]
    rw [loop_out_nomatch (by omega) h1]
    rw [show s + step + step = s + 2 * step from by ring]
    rw [loop_out_match (by omega) h2 (by omega)]
    rw [show s + 2 * step + step = s + 3 * step from by ring]
    rw [loop_in_match (by omega) h3]
    rw [show s + 3 * step + step = s + 4 * step from by ring]
    rw [loop_in_nomatch (by omega) h4]
    rw [show s + 4 * step + step = s + 5 * step from by ring]
    rw [loop_out_nomatch (by omega) h5]
    rw [show s + 5 * step + step = s + 6 * step from by ring]
    rw [loop_out_match (by omega) h6 (by omega)]
    rw [show s + 6 * step + step = s + 7 * step from by ring]
    rw [loop_in_match (by omega) h7]
    rw [show s + 7 * step + step = s + 8 * step from by ring]
    rw [loop_done_in_match (by omega) h7]
  have hb1 := find_entry_loop_bounds oracle p target pm
    ((s + 2 * step) - (s + 2 * step - step)) (s + 2 * step - step)
    (s + 2 * step) (Nat.sub_le _ _)
  have hE1 : find_entry_point oracle p target pm (s + 2 * step - step)
      (s + 2 * step) ≤ s + 2 * step := by
    unfold find_entry_point
    exact le_trans (floor_to_quantum_le pm _) hb1.2.2
  have hb2 := find_exit_loop_bounds oracle p target pm
    ((s + 4 * step) - (s + 4 * step - step)) (s + 4 * step - step)
    (s + 4 * step) (Nat.sub_le _ _)
  have hs2 := find_exit_loop_strict oracle p target pm
    ((s + 4 * step) - (s + 4 * step - step)) (s + 4 * step - step)
    (s + 4 * step) (by omega)
  have hX1 : find_exit_point oracle p target pm (s + 4 * step - step)
      (s + 4 * step) < s + 4 * step := by
    unfold find_exit_point
    exact lt_of_le_of_lt (floor_to_quantum_le pm _)
      (lt_of_lt_of_le hs2 hb2.2.2)
  have hb3 := find_entry_loop_bounds oracle p target pm
    ((s + 6 * step) - (s + 6 * step - step)) (s + 6 * step - step)
    (s + 6 * step) (Nat.sub_le _ _)
  have hs3 := find_entry_loop_strict oracle p target pm
    ((s + 6 * step) - (s + 6 * step - step)) (s + 6 * step - step)
    (s + 6 * step) (by omega)
  have hfl3 := lt_floor_to_quantum_add pm
    (find_entry_loop oracle p target pm
      ((s + 6 * step) - (s + 6 * step - step)) (s + 6 * step - step)
      (s + 6 * step)).2
  have hE2 : s + 4 * step < find_entry_point oracle p target pm
      (s + 6 * step - step) (s + 6 * step) := by
    unfold find_entry_point
    omega
  refine ⟨by rw [hlist]; rfl, fun r1 r2 heq => ?_⟩
  rw [hlist] at heq
  simp only [List.cons.injEq, and_true] at heq
  obtain ⟨hr1, hr2⟩ := heq
  subst hr1
  subst hr2
  refine ⟨?_, ?_, ?_⟩ <;> · dsimp only; omega

/-- C1 witness: the synthetic `A, A, B, B, A, A, B, B` oracle searched for
`B = taurus` with the Moon over `[0, 7 d]` yields exactly two intervals. -/
theorem c1_reentry_separation_witness :
    (find_ranges oracle_reentry Planet.moon (Sign.zodiac ZodiacSign.taurus)
      false 0 604800000000).length = 2 :=
  (c1_reentry_separation oracle_reentry Planet.moon
    (Sign.zodiac ZodiacSign.taurus) false 0 86400000000 (by decide)
    (by decide) (by decide) (by decide) (by decide) (by decide) (by decide)
    (by decide) (by decide)).1

end Planetas
